import Mathlib

/-!
Verification of the table reconciliation and selection engine of pass-tui.

The definitions below are a shallow embedding of the program:

* `PassTuple` embeds `passutils.PassTuple` (`src/passutils.py`), together with
  its path parsing (`from_str`) and formatting (`str`, via `os.path.join`).
* `syncMerge`, `syncCursorDiff` and `sync` embed the two-pointer merge of
  `PassTable.sync` (`src/passtable.py`, lines 729-762).
* `selected_rows` / `selected_tuples` embed the selection-target generators
  (`src/passtable.py`, lines 834-855).
* `move_has_conflicts`, `passMove`, `passRm` embed the store-adapter helpers
  of `src/passutils.py` over an explicit model of the filesystem as the list
  of currently existing paths (`os.path.exists` is membership in that list).
* `tableMove` and `delete_selected` embed the bulk operations
  `PassTable.move` and `PassTable.delete_selected`, recording the performed
  store I/O and the user notifications as an explicit effect trace.
* `get_passwords` / `get_categorized_passwords` embed the store listing
  (`src/passutils.py`, lines 107-163) over a directory-tree model of the
  store.

Python string primitives (`str.split`, `str.startswith`, comparison,
`os.path.join`, `os.path.splitext`) are embedded as functions on the
character data of `String`, which matches Python's code-point semantics.
-/

namespace PassTui

/-! ### Python string primitives -/

/-- Python string comparison (`<` on `str`): code-point lexicographic order,
embedded as the lexicographic order on the character list of the string. -/
def strLt (a b : String) : Bool :=
  decide (a.data < b.data)

/-- Helper for `splitOnChar`: splits the character list at every occurrence of
`c`, accumulating the current (reversed) segment in `acc`. -/
def splitOnCharAux (c : Char) : List Char → List Char → List (List Char)
  | [], acc => [acc.reverse]
  | x :: xs, acc =>
      if x = c then acc.reverse :: splitOnCharAux c xs []
      else splitOnCharAux c xs (x :: acc)

/-- Python `s.split(sep)` for a one-character separator, as used by
`PassTuple.from_str` (`path.split("/")`). `split` on a nonempty separator
never returns an empty list: an empty string yields `[""]`. -/
def splitOnChar (c : Char) (s : String) : List String :=
  (splitOnCharAux c s.data []).map (fun l => ⟨l⟩)

/-- Python `os.path.basename`: everything after the final path separator. -/
def basename (s : String) : String :=
  (splitOnChar '/' s).getLastD s

/-- Python `s.startswith(".")` on the first character. -/
def startsWithDot (s : String) : Bool :=
  match s.data with
  | [] => false
  | ch :: _ => ch = '.'

/-- Embeds `passutils.is_hidden`: whether the basename of a path starts with
the hidden marker `"."`. -/
def is_hidden (path : String) : Bool :=
  startsWithDot (basename path)

/-- One step of Python `os.path.join` (posixpath): append component `b` to the
accumulated `path`. An absolute component replaces the accumulated path; an
empty accumulated path or one ending in the separator is extended without
inserting a separator. -/
def joinStep (path b : String) : String :=
  if startsWithSlash b then b
  else if path = "" || endsWithSlash path then path ++ b
  else path ++ "/" ++ b
where
  startsWithSlash (s : String) : Bool :=
    match s.data with
    | [] => false
    | ch :: _ => ch = '/'
  endsWithSlash (s : String) : Bool :=
    match s.data.reverse with
    | [] => false
    | ch :: _ => ch = '/'

/-- Python `os.path.join(a, *ps)`. -/
def ospJoin (a : String) (ps : List String) : String :=
  ps.foldl joinStep a

/-- Python `os.path.splitext(f)[1] == ".gpg"`: for the file names this is
applied to (already filtered to be non-hidden, so not starting with a dot)
the extension is `".gpg"` exactly when the name has that suffix. -/
def gpgExt (f : String) : Bool :=
  (".gpg").data.isSuffixOf f.data

/-! ### EntryIdentifier: `passutils.PassTuple` -/

/-- Embeds `passutils.PassTuple`: the structured relative path of one store
entry, `(profile, cats, url)`. -/
structure PassTuple where
  profile : String
  cats : String
  url : String
deriving DecidableEq, Repr

/-- Embeds `PassTuple.__str__`: `os.path.join(self.profile, self.cats, self.url)`. -/
def PassTuple.str (t : PassTuple) : String :=
  ospJoin t.profile [t.cats, t.url]

/-- Embeds `PassTuple.from_str`: split the path on `"/"`; one segment is a
bare url, two segments are profile and url, three or more put everything
between the first and last segment into the category field (joined by
`os.path.join`). -/
def PassTuple.from_str (path : String) : PassTuple :=
  match splitOnChar '/' path with
  | [] => ⟨"", "", ""⟩
  | [u] => ⟨"", "", u⟩
  | [p, u] => ⟨p, "", u⟩
  | p :: c :: rest => ⟨p, ospJoin c rest.dropLast, rest.getLastD c⟩

/-- Python comparison of `PassTuple` named tuples: lexicographic on
`(profile, cats, url)` with string comparison on each field. -/
def ptLt (a b : PassTuple) : Bool :=
  strLt a.profile b.profile ||
    (a.profile == b.profile &&
      (strLt a.cats b.cats ||
        (a.cats == b.cats && strLt a.url b.url)))

/-! ### Rows and table state -/

/-- One table row: the entry identifier together with the checkbox state
(`RowCheckbox.checked`). The display ordinal is a derived label recomputed by
`update_enumeration` and carries no independent state, so it is not part of
the row. -/
structure PassRow where
  tuple : PassTuple
  selected : Bool
deriving DecidableEq, Repr

/-- The table state the reconciliation engine acts on: the ordered row list
and the cursor row index. -/
structure TableState where
  rows : List PassRow
  cursor : Nat
deriving DecidableEq, Repr

/-- Cursor clamping performed by `DataTable.move_cursor`: the requested row
index is clamped to `[0, row_count - 1]` (`0` for an empty table). -/
def clampRow (len : Nat) (r : Int) : Nat :=
  if len = 0 then 0 else (min (max r 0) ((len : Int) - 1)).toNat

/-- The row list produced by the merge loop of `PassTable.sync`
(`src/passtable.py`, lines 738-756): a two-pointer walk over the fresh
listing `newPasses` and the previous rows `oldPasses`. A fresh identifier
smaller than the current old row is emitted as a new unselected row; an old
row smaller than the current fresh identifier is dropped; on equality the
row is emitted carrying the old checkbox. Fresh identifiers remaining after
the old rows are exhausted are appended as new unselected rows. -/
def syncMerge (newPasses : List PassTuple) (oldPasses : List PassRow) : List PassRow :=
  match newPasses, oldPasses with
  | [], _ => []
  | n :: ns, [] => ⟨n, false⟩ :: syncMerge ns []
  | n :: ns, o :: os =>
      if ptLt n o.tuple then ⟨n, false⟩ :: syncMerge ns (o :: os)
      else if ptLt o.tuple n then syncMerge (n :: ns) os
      else ⟨n, o.selected⟩ :: syncMerge ns os
termination_by newPasses.length + oldPasses.length

/-- The `cursor_diff` accumulated by the same loop of `PassTable.sync`:
`+1` for every fresh identifier emitted inside the main loop, `-1` for every
old row dropped there; the trailing loop over leftover fresh identifiers does
not touch it. -/
def syncCursorDiff (newPasses : List PassTuple) (oldPasses : List PassRow) : Int :=
  match newPasses, oldPasses with
  | [], _ => 0
  | _ :: _, [] => 0
  | n :: ns, o :: os =>
      if ptLt n o.tuple then syncCursorDiff ns (o :: os) + 1
      else if ptLt o.tuple n then syncCursorDiff (n :: ns) os - 1
      else syncCursorDiff ns os
termination_by newPasses.length + oldPasses.length

/-- Embeds `PassTable.sync` (`src/passtable.py`, lines 729-762) as a function
of the freshly fetched listing: the table is rebuilt from the merged rows and
the cursor is moved to `old_cursor + cursor_diff` (clamped by
`move_cursor`). -/
def sync (newPasses : List PassTuple) (s : TableState) : TableState :=
  let rows := syncMerge newPasses s.rows
  { rows := rows
    cursor := clampRow rows.length ((s.cursor : Int) + syncCursorDiff newPasses s.rows) }

/-- Embeds `PassTable.current_row`: the row under the cursor (the cursor is
always valid when the table is non-empty). -/
def current_row (rows : List PassRow) (cursor : Nat) : PassRow :=
  rows.getD cursor ⟨⟨"", "", ""⟩, false⟩

/-- Embeds `PassTable.selected_rows` (`src/passtable.py`, lines 834-843):
all rows whose checkbox is checked; if none is, the single row under the
cursor. -/
def selected_rows (rows : List PassRow) (cursor : Nat) : List PassRow :=
  let sel := rows.filter (·.selected)
  if sel.length = 0 then [current_row rows cursor] else sel

/-- Embeds `PassTable.selected_tuples` (`src/passtable.py`, lines 845-855):
the identifiers of `selected_rows`. -/
def selected_tuples (rows : List PassRow) (cursor : Nat) : List PassTuple :=
  (selected_rows rows cursor).map (·.tuple)

/-- Stable insertion of `x` into a sorted list: `x` is placed before the
first element strictly greater than it. -/
def insertSorted {α : Type} (lt : α → α → Bool) (x : α) : List α → List α
  | [] => [x]
  | y :: ys => if lt x y then x :: y :: ys else y :: insertSorted lt x ys

/-- Python's `sorted` / `DataTable.sort`: a stable sort by the strict
comparator `lt` (Python sorts call only `__lt__`), modeled as stable
insertion sort. -/
def pySorted {α : Type} (lt : α → α → Bool) (l : List α) : List α :=
  l.foldl (fun acc x => insertSorted lt x acc) []

/-- The `self.sort(key=lambda row: (row[1], row[2], row[3]))` step of
`PassTable.sort_sync_enumerate`: sort the rows by their identifier. The
cursor coordinate is not moved by sorting. -/
def sortRows (rows : List PassRow) : List PassRow :=
  pySorted (fun r s => ptLt r.tuple s.tuple) rows

/-- Embeds `PassTable.sort_sync_enumerate` as a function of the listing that
`sync` fetches: sort the rows, then reconcile. The trailing
`update_enumeration` only recomputes the displayed row labels and does not
change rows, selection or cursor. -/
def sort_sync_enumerate (listing : List PassTuple) (s : TableState) : TableState :=
  sync listing { s with rows := sortRows s.rows }

/-! ### Store adapter model

The filesystem under the password store is modeled as the list of currently
existing paths; `os.path.exists` is membership. The store root path is an
arbitrary fixed absolute path. -/

/-- The password store root (`get_passstore_path`); its concrete value is
irrelevant to the claims. -/
def passstorePath : String := "/store"

/-- Embeds `passutils.dst_to_fs_path`: `os.path.join(get_passstore_path(), dst)`. -/
def dst_to_fs_path (dst : String) : String :=
  joinStep passstorePath dst

/-- Embeds `PassTuple.fs_path`:
`os.path.join(get_passstore_path(), profile, cats, url + ".gpg")`. -/
def fs_path (t : PassTuple) : String :=
  ospJoin passstorePath [t.profile, t.cats, t.url ++ ".gpg"]

/-- Python `os.path.exists` over the existing-path model. -/
def pathExists (fs : List String) (p : String) : Bool :=
  fs.contains p

/-- Embeds `passutils.move_has_conflicts` (`src/passutils.py`, lines
230-266): if the destination directory does not exist there is no conflict;
otherwise, with `keep_cats`, a conflict is a candidate whose
`os.path.join(path, profile, cats, url + ".gpg")` exists, and without
`keep_cats` one whose `os.path.join(path, url + ".gpg")` exists. -/
def move_has_conflicts (fs : List String) (pass_tuples : List PassTuple)
    (dst : String) (keep_cats : Bool) : Bool :=
  let path := joinStep passstorePath dst
  if !pathExists fs path then false
  else if keep_cats then
    pass_tuples.any fun t =>
      pathExists fs (ospJoin path [t.profile, t.cats, t.url ++ ".gpg"])
  else
    pass_tuples.any fun t =>
      pathExists fs (ospJoin path [t.url ++ ".gpg"])

/-- Record a path as existing (model of `os.makedirs(..., exist_ok=True)` for
the directory it creates, and of a file appearing). -/
def insertPath (fs : List String) (p : String) : List String :=
  if fs.contains p then fs else fs ++ [p]

/-- Embeds `passutils.move`: create the destination directory, then
`shutil.move` the entry file into it. The OS-level move succeeds exactly
when the source file exists, relocating it into the destination directory
under its basename (`url + ".gpg"`). -/
def passMove (fs : List String) (t : PassTuple) (dst : String) : Bool × List String :=
  let fs1 := insertPath fs (dst_to_fs_path dst)
  let src := fs_path t
  if fs1.contains src then
    (true, insertPath (fs1.erase src) (joinStep (dst_to_fs_path dst) (t.url ++ ".gpg")))
  else (false, fs1)

/-- Embeds `passutils.rm`: `os.remove` of the entry file, succeeding exactly
when it exists. -/
def passRm (fs : List String) (t : PassTuple) : Bool × List String :=
  if fs.contains (fs_path t) then (true, fs.erase (fs_path t)) else (false, fs)

/-! ### Bulk operations with an explicit effect trace -/

/-- Observable effects of a bulk operation: attempted store I/O and user
notifications. `ioPrune` stands for a call to `passutils.prune`
(`src/passutils.py`, lines 308-318); the constructor exists so that claims
about pruning can be stated. -/
inductive Effect where
  | ioMove (t : PassTuple) (dst : String) (ok : Bool)
  | ioRemove (t : PassTuple) (ok : Bool)
  | ioPrune
  | syncRun
  | notifyConflict
  | notifySuccess
  | notifyFailure (n : Nat)
deriving DecidableEq, Repr

/-- One iteration of the per-row loop of `PassTable.move`
(`src/passtable.py`, lines 792-808): attempt the store move (to
`os.path.join(dst, cats)` when keeping categories, to `dst` otherwise),
count a failure, and on success update the row in the table to its new
identifier. Rows are unique in a table, so updating the row object is
updating the equal row in the list. -/
def moveStep (dst : String) (keep_cats : Bool)
    (acc : List String × List PassRow × Nat × List Effect) (r : PassRow) :
    List String × List PassRow × Nat × List Effect :=
  let fs := acc.1
  let rows := acc.2.1
  let nFails := acc.2.2.1
  let effs := acc.2.2.2
  let target := if keep_cats then joinStep dst r.tuple.cats else dst
  let res := passMove fs r.tuple target
  let effs' := effs ++ [Effect.ioMove r.tuple target res.1]
  if res.1 then
    let newTuple :=
      if keep_cats then PassTuple.from_str (ospJoin dst [r.tuple.cats, r.tuple.url])
      else PassTuple.from_str (joinStep dst r.tuple.url)
    (res.2, rows.map (fun x => if x == r then { x with tuple := newTuple } else x),
      nFails, effs')
  else (res.2, rows, nFails + 1, effs')

/-- Embeds `PassTable.move` (`src/passtable.py`, lines 781-821): snapshot the
selection targets, run the batch conflict check, and on conflict notify and
return; otherwise move every target independently, then
`sort_sync_enumerate`, notify success or the failure count, and
`sort_sync_enumerate` again. `listing` is the value
`get_categorized_passwords` returns after the per-row I/O; no external store
change happens between the two reconciliations, so both observe the same
listing. -/
def tableMove (fs : List String) (s : TableState) (listing : List PassTuple)
    (dst : String) (keep_cats : Bool) :
    List String × TableState × List Effect :=
  let change_list_rows := selected_rows s.rows s.cursor
  if move_has_conflicts fs (selected_tuples s.rows s.cursor) dst keep_cats then
    (fs, s, [Effect.notifyConflict])
  else
    let res := change_list_rows.foldl (moveStep dst keep_cats) (fs, s.rows, 0, [])
    let s1 := sort_sync_enumerate listing { s with rows := res.2.1 }
    let notif :=
      if res.2.2.1 = 0 then Effect.notifySuccess else Effect.notifyFailure res.2.2.1
    let s2 := sort_sync_enumerate listing s1
    (res.1, s2, res.2.2.2 ++ [Effect.syncRun, notif, Effect.syncRun])

/-- The removal loop of `PassTable.delete_selected`: attempt
`passutils.rm` for every target in order, counting failures and never
aborting. -/
def rmLoop (fs : List String) : List PassRow → List String × Nat × List Effect
  | [] => (fs, 0, [])
  | r :: rs =>
      let res := passRm fs r.tuple
      let rest := rmLoop res.2 rs
      (rest.1, rest.2.1 + (if res.1 then 0 else 1),
        Effect.ioRemove r.tuple res.1 :: rest.2.2)

/-- Embeds `PassTable.delete_selected` (`src/passtable.py`, lines 693-707):
remove every selected row independently, notify success or the failure
count, then `sort_sync_enumerate`. `listing` is the value
`get_categorized_passwords` returns afterwards. -/
def delete_selected (fs : List String) (s : TableState) (listing : List PassTuple) :
    List String × TableState × List Effect :=
  let sel := selected_rows s.rows s.cursor
  let res := rmLoop fs sel
  let notif :=
    if res.2.1 > 0 then Effect.notifyFailure res.2.1 else Effect.notifySuccess
  (res.1, sort_sync_enumerate listing s, res.2.2 ++ [notif, Effect.syncRun])

/-! ### Store listing: `get_passwords` over a directory tree

`os.walk` is modeled on an explicit directory tree. The code's
`dirs = [dir for dir in dirs if not is_hidden(dir)]` rebinds the local name
`dirs` instead of mutating the list `os.walk` yielded, so it does not prune
the traversal: every directory, hidden or not, is still visited. The walk
therefore only skips the files of a directory whose own basename is hidden
(`if not is_hidden(root_dir)`) and hidden files themselves. -/

/-- A directory in the store: its basename, subdirectories and file names. -/
inductive FSTree where
  | dir (name : String) (subdirs : List FSTree) (files : List String)
deriving Repr

/-- Basename of a directory node. -/
def FSTree.name : FSTree → String
  | .dir n _ _ => n

/-- The relative password paths a directory contributes: for a directory
whose basename is not hidden, every non-hidden `.gpg` file, as
`os.path.join(relative_dir, stem)`. -/
def walkFiles (rel : String) (name : String) (files : List String) : List String :=
  if is_hidden name then []
  else
    files.filterMap fun f =>
      if is_hidden f then none
      else if gpgExt f then some (joinStep rel (f.dropRight 4)) else none

mutual

/-- Embeds the `os.walk` loop of `passutils.get_passwords` on the directory
`t` whose path relative to the store root is `rel` (`""` for the root
itself). All subdirectories are visited, because the hidden-directory filter
in the code rebinds `dirs` and has no effect on the traversal. -/
def walkDir (rel : String) (t : FSTree) : List String :=
  match t with
  | .dir name subdirs files => walkFiles rel name files ++ walkChildren rel subdirs

/-- The recursive descent of `os.walk` into every subdirectory. -/
def walkChildren (rel : String) : List FSTree → List String
  | [] => []
  | t :: ts => walkDir (joinStep rel t.name) t ++ walkChildren rel ts

end

/-- Embeds `passutils.get_passwords` on a store rooted at `store` (the node
name is the basename of the store directory). -/
def get_passwords (store : FSTree) : List String :=
  walkDir "" store

/-- Embeds `passutils.get_categorized_passwords`:
`sorted(categorize_passwords(get_passwords()))`. -/
def get_categorized_passwords (store : FSTree) : List PassTuple :=
  pySorted ptLt ((get_passwords store).map PassTuple.from_str)

/-! ### Specification-side definitions (for comparison with the code) -/

/-- The conflict predicate exactly as the specification words it: true if,
for some candidate, the computed destination path — destination + category +
name when `keep_cats`, destination + name otherwise — already exists in the
store (with the store's `".gpg"` file naming). -/
def hasConflictSpec (fs : List String) (candidates : List PassTuple)
    (dst : String) (keep_cats : Bool) : Bool :=
  candidates.any fun t =>
    if keep_cats then
      pathExists fs (ospJoin passstorePath [dst, t.cats, t.url ++ ".gpg"])
    else
      pathExists fs (ospJoin passstorePath [dst, t.url ++ ".gpg"])

/-- The visible `.gpg` files of one directory (shared by the
specification-side walk). -/
def walkFilesVisible (rel : String) (files : List String) : List String :=
  files.filterMap fun f =>
    if is_hidden f then none
    else if gpgExt f then some (joinStep rel (f.dropRight 4)) else none

mutual

/-- The store walk as the specification words it: hidden files and hidden
directories are excluded together with all descendants of hidden
directories. -/
def specWalkDir (rel : String) (t : FSTree) : List String :=
  match t with
  | .dir name subdirs files =>
      if is_hidden name then []
      else walkFilesVisible rel files ++ specWalkChildren rel subdirs

/-- Descent of the specification-side walk: hidden subdirectories are pruned
entirely. -/
def specWalkChildren (rel : String) : List FSTree → List String
  | [] => []
  | t :: ts => specWalkDir (joinStep rel t.name) t ++ specWalkChildren rel ts

end

/-- The store listing as the specification words it: enumerate the visible
store contents (excluding hidden files, hidden directories and all their
descendants), sorted by identifier. -/
def listEntriesSpec (store : FSTree) : List PassTuple :=
  pySorted ptLt ((specWalkDir "" store).map PassTuple.from_str)

/-! ## Theorems -/

/-! ### Order lemmas -/

theorem strLt_iff (a b : String) : strLt a b = true ↔ a < b := by
  simp [strLt]

theorem strLt_irrefl (a : String) : strLt a a = false := by
  rw [← Bool.not_eq_true, strLt_iff]
  exact lt_irrefl a

theorem strLt_asymm {a b : String} (h1 : strLt a b = true) (h2 : strLt b a = true) :
    False := by
  rw [strLt_iff] at h1 h2
  exact absurd h2 (lt_asymm h1)

theorem strLt_antisymm {a b : String} (h1 : strLt a b = false) (h2 : strLt b a = false) :
    a = b := by
  rcases lt_trichotomy a b with h | h | h
  · rw [← strLt_iff] at h
    rw [h1] at h
    cases h
  · exact h
  · rw [← strLt_iff] at h
    rw [h2] at h
    cases h

theorem ptLt_irrefl (a : PassTuple) : ptLt a a = false := by
  simp [ptLt, strLt_irrefl]

theorem ptLt_asymm {a b : PassTuple} (h1 : ptLt a b = true) (h2 : ptLt b a = true) :
    False := by
  simp only [ptLt, Bool.or_eq_true, Bool.and_eq_true, beq_iff_eq] at h1 h2
  rcases h1 with h1 | ⟨e1, h1 | ⟨e1', h1⟩⟩ <;>
    rcases h2 with h2 | ⟨e2, h2 | ⟨e2', h2⟩⟩ <;>
      (try simp_all [strLt_irrefl]) <;>
        exact strLt_asymm h1 h2

theorem ptLt_antisymm {a b : PassTuple} (h1 : ptLt a b = false) (h2 : ptLt b a = false) :
    a = b := by
  simp only [ptLt, Bool.or_eq_false_iff, Bool.and_eq_false_iff, beq_eq_false_iff_ne,
    ne_eq] at h1 h2
  obtain ⟨hp1, hrest1⟩ := h1
  obtain ⟨hp2, hrest2⟩ := h2
  have hp : a.profile = b.profile := strLt_antisymm hp1 hp2
  rcases hrest1 with hne | hrest1
  · exact absurd hp hne
  rcases hrest2 with hne | hrest2
  · exact absurd hp.symm hne
  obtain ⟨hc1, hrest1⟩ := hrest1
  obtain ⟨hc2, hrest2⟩ := hrest2
  have hc : a.cats = b.cats := strLt_antisymm hc1 hc2
  rcases hrest1 with hne | hu1
  · exact absurd hc hne
  rcases hrest2 with hne | hu2
  · exact absurd hc.symm hne
  have hu : a.url = b.url := strLt_antisymm hu1 hu2
  cases a
  cases b
  simp_all

/-! ### Merge engine lemmas -/

/-- The merged row list carries exactly the fresh identifiers, in order. -/
theorem syncMerge_map_tuple (newPasses : List PassTuple) (oldPasses : List PassRow) :
    (syncMerge newPasses oldPasses).map (·.tuple) = newPasses := by
  induction newPasses, oldPasses using syncMerge.induct with
  | case1 _ => simp [syncMerge]
  | case2 n ns ih => simpa [syncMerge] using ih
  | case3 n ns o os h ih => simp [syncMerge, h, ih]
  | case4 n ns o os h h' ih => simp [syncMerge, h, h', ih]
  | case5 n ns o os h h' ih => simp [syncMerge, h, h', ih]

/-- Merging a row list with its own identifier listing reproduces it. -/
theorem syncMerge_self (rows : List PassRow) :
    syncMerge (rows.map (·.tuple)) rows = rows := by
  induction rows with
  | nil => simp [syncMerge]
  | cons r rs ih =>
      simp only [List.map_cons, syncMerge, ptLt_irrefl r.tuple, if_false]
      exact congrArg (r :: ·) ih

/-- Merging a row list with its own identifier listing accumulates no cursor
offset. -/
theorem syncCursorDiff_self (rows : List PassRow) :
    syncCursorDiff (rows.map (·.tuple)) rows = 0 := by
  induction rows with
  | nil => simp [syncCursorDiff]
  | cons r rs ih =>
      simp only [List.map_cons, syncCursorDiff, ptLt_irrefl r.tuple, if_false]
      exact ih

theorem clampRow_coe (len c : Nat) (h : c < len) : clampRow len (c : Int) = c := by
  unfold clampRow
  rw [if_neg (by omega)]
  omega

theorem clampRow_lt (len : Nat) (x : Int) (h : 0 < len) : clampRow len x < len := by
  unfold clampRow
  rw [if_neg (by omega)]
  omega

theorem clampRow_idem (len : Nat) (x : Int) :
    clampRow len ((clampRow len x : Nat) : Int) = clampRow len x := by
  by_cases h : len = 0
  · subst h
    simp [clampRow]
  · exact clampRow_coe _ _ (clampRow_lt _ _ (Nat.pos_of_ne_zero h))

/-- Syncing any state whose rows carry exactly the identifiers `L` keeps the
rows and merely clamps the cursor. -/
theorem sync_of_map_tuple {L : List PassTuple} {R : List PassRow}
    (h : R.map (·.tuple) = L) (c : Nat) :
    sync L ⟨R, c⟩ = ⟨R, clampRow R.length (c : Int)⟩ := by
  subst h
  show (⟨syncMerge _ R, clampRow (syncMerge (R.map (·.tuple)) R).length
      ((c : Int) + syncCursorDiff (R.map (·.tuple)) R)⟩ : TableState) = _
  rw [syncMerge_self, syncCursorDiff_self, Int.add_zero]

/-- Running `sync` twice against the same listing gives the same result as
running it once. -/
theorem sync_idem (L : List PassTuple) (s : TableState) :
    sync L (sync L s) = sync L s := by
  have hmap : (syncMerge L s.rows).map (·.tuple) = L := syncMerge_map_tuple L s.rows
  have hs : sync L s = ⟨syncMerge L s.rows,
      clampRow (syncMerge L s.rows).length
        ((s.cursor : Int) + syncCursorDiff L s.rows)⟩ := rfl
  rw [hs, sync_of_map_tuple hmap, clampRow_idem]

/-- A sorted fresh listing has pairwise distinct identifiers, so the merged
row list carries each identifier once. -/
theorem syncMerge_nodup_tuples (ns : List PassTuple) (os : List PassRow)
    (hnew : ns.Pairwise (fun a b => ptLt a b = true)) :
    ((syncMerge ns os).map (·.tuple)).Nodup := by
  rw [syncMerge_map_tuple]
  refine hnew.imp ?_
  intro a b h he
  subst he
  rw [ptLt_irrefl] at h
  cases h

/-- A row whose identifier persists in the fresh listing survives the merge
with its selection flag, provided both inputs are sorted. -/
theorem syncMerge_mem_of_persist (ns : List PassTuple) (os : List PassRow)
    (hnew : ns.Pairwise (fun a b => ptLt a b = true))
    (hold : os.Pairwise (fun p q => ptLt p.tuple q.tuple = true))
    (r : PassRow) (hr : r ∈ os) (hmem : r.tuple ∈ ns) :
    r ∈ syncMerge ns os := by
  induction ns, os using syncMerge.induct with
  | case1 os =>
      exact absurd hmem (List.not_mem_nil _)
  | case2 n ns ih =>
      exact absurd hr (List.not_mem_nil _)
  | case3 n ns o os hlt ih =>
      have houtput : syncMerge (n :: ns) (o :: os) = ⟨n, false⟩ :: syncMerge ns (o :: os) := by
        simp [syncMerge, hlt]
      rw [houtput]
      rcases List.mem_cons.mp hmem with heq | htl
      · exfalso
        rcases List.mem_cons.mp hr with rfl | hros
        · rw [← heq] at hlt
          rw [ptLt_irrefl] at hlt
          cases hlt
        · have h2 : ptLt o.tuple r.tuple = true := (List.pairwise_cons.mp hold).1 r hros
          rw [heq] at h2
          exact ptLt_asymm hlt h2
      · exact List.mem_cons_of_mem _ (ih hnew.of_cons hold hr htl)
  | case4 n ns o os hnlt hgt ih =>
      have houtput : syncMerge (n :: ns) (o :: os) = syncMerge (n :: ns) os := by
        simp [syncMerge, hnlt, hgt]
      rw [houtput]
      rcases List.mem_cons.mp hr with rfl | hros
      · exfalso
        rcases List.mem_cons.mp hmem with heq | htl
        · rw [heq] at hgt
          rw [ptLt_irrefl] at hgt
          cases hgt
        · have hno : ptLt n r.tuple = true := (List.pairwise_cons.mp hnew).1 _ htl
          exact ptLt_asymm hno hgt
      · exact ih hnew hold.of_cons hros hmem
  | case5 n ns o os hnlt hngt ih =>
      have heq : n = o.tuple := by
        refine ptLt_antisymm ?_ ?_
        · simpa using hnlt
        · simpa using hngt
      have houtput : syncMerge (n :: ns) (o :: os) = ⟨n, o.selected⟩ :: syncMerge ns os := by
        simp [syncMerge, hnlt, hngt]
      rw [houtput]
      rcases List.mem_cons.mp hr with rfl | hros
      · refine List.mem_cons.mpr (Or.inl ?_)
        rw [heq]
      · rcases List.mem_cons.mp hmem with heq2 | htl
        · exfalso
          have h2 : ptLt o.tuple r.tuple = true := (List.pairwise_cons.mp hold).1 r hros
          rw [heq2, ← heq] at h2
          rw [ptLt_irrefl] at h2
          cases h2
        · exact List.mem_cons_of_mem _ (ih hnew.of_cons hold.of_cons hros htl)

/-! ### Claim theorems for the reconciliation engine -/

/-- C10: after `sync` completes, the sequence of identifiers of the resulting
row list equals exactly the freshly fetched store listing — every fetched
identifier appears exactly once, in listing order, and no other row survives
— regardless of the previous rows, selection or cursor. -/
theorem sync_rows_carry_exactly_the_listing (newPasses : List PassTuple) (s : TableState) :
    ((sync newPasses s).rows).map (·.tuple) = newPasses :=
  syncMerge_map_tuple newPasses s.rows

/-- C3: syncing a sorted row list against a listing equal to its own
identifiers returns a structurally equal row list (same identifiers, same
selection flags) with the cursor at the same index, hence the same
identifier; and running `sync` twice with no store change between the calls
yields identical results both times. -/
theorem sync_fixpoint_on_unchanged_store (rows : List PassRow) (c : Nat)
    (hsorted : rows.Pairwise (fun p q => ptLt p.tuple q.tuple = true))
    (hc : c < rows.length) :
    sync (rows.map (·.tuple)) ⟨rows, c⟩ = ⟨rows, c⟩ ∧
      ∀ (listing : List PassTuple) (t : TableState),
        sync listing (sync listing t) = sync listing t := by
  refine ⟨?_, fun L t => sync_idem L t⟩
  rw [sync_of_map_tuple rfl c, clampRow_coe _ _ hc]

/-- Witness for C3 at a concrete sorted one-row table with cursor 0. -/
theorem sync_fixpoint_on_unchanged_store_witness :
    sync (([⟨⟨"", "", "a"⟩, true⟩] : List PassRow).map (·.tuple))
        ⟨[⟨⟨"", "", "a"⟩, true⟩], 0⟩ = ⟨[⟨⟨"", "", "a"⟩, true⟩], 0⟩ :=
  (sync_fixpoint_on_unchanged_store [⟨⟨"", "", "a"⟩, true⟩] 0
    (by decide) (by decide)).1

/-- C2: a row whose identifier still appears in the fresh store listing keeps
its selection flag across `sync` (for sorted rows and listing, as maintained
by the program), and it is the unique row with that identifier afterwards.
In particular a selected entry stays selected when an unrelated entry is
removed. -/
theorem sync_preserves_selection_of_persistent_rows
    (newPasses : List PassTuple) (oldPasses : List PassRow) (c : Nat) (r : PassRow)
    (hnew : newPasses.Pairwise (fun a b => ptLt a b = true))
    (hold : oldPasses.Pairwise (fun p q => ptLt p.tuple q.tuple = true))
    (hr : r ∈ oldPasses) (hmem : r.tuple ∈ newPasses) :
    r ∈ (sync newPasses ⟨oldPasses, c⟩).rows ∧
      ∀ r' ∈ (sync newPasses ⟨oldPasses, c⟩).rows, r'.tuple = r.tuple → r' = r := by
  have hmem' : r ∈ syncMerge newPasses oldPasses :=
    syncMerge_mem_of_persist newPasses oldPasses hnew hold r hr hmem
  have hnd := syncMerge_nodup_tuples newPasses oldPasses hnew
  exact ⟨hmem', fun r' hr' he => List.inj_on_of_nodup_map hnd hr' hmem' he⟩

/-- Witness for C2: entry `a` is selected, entry `b` disappears from the
store; after `sync`, `a` is still present and selected. -/
theorem sync_preserves_selection_of_persistent_rows_witness :
    (⟨⟨"", "", "a"⟩, true⟩ : PassRow) ∈
      (sync [⟨"", "", "a"⟩]
        ⟨[⟨⟨"", "", "a"⟩, true⟩, ⟨⟨"", "", "b"⟩, false⟩], 0⟩).rows :=
  (sync_preserves_selection_of_persistent_rows
    [⟨"", "", "a"⟩] [⟨⟨"", "", "a"⟩, true⟩, ⟨⟨"", "", "b"⟩, false⟩] 0
    ⟨⟨"", "", "a"⟩, true⟩ (by decide) (by decide) (by decide) (by decide)).1

/-- C1 (code evaluation): with sorted rows `[a, c]`, the cursor on index 0
(entry `a`) and the fresh listing `[a, b, c]`, the insertion of `b` is
processed at merge position `j = 1`, strictly after the cursor; the claim
says the cursor index must stay 0 and keep denoting `a`, but the code
increments `cursor_diff` for every insertion processed in the main merge
loop, so the cursor lands on index 1, which now denotes `b`. -/
theorem sync_shifts_cursor_for_insertion_after_cursor :
    sync [⟨"", "", "a"⟩, ⟨"", "", "b"⟩, ⟨"", "", "c"⟩]
        ⟨[⟨⟨"", "", "a"⟩, false⟩, ⟨⟨"", "", "c"⟩, false⟩], 0⟩ =
      ⟨[⟨⟨"", "", "a"⟩, false⟩, ⟨⟨"", "", "b"⟩, false⟩, ⟨⟨"", "", "c"⟩, false⟩], 1⟩ ∧
    current_row
        (sync [⟨"", "", "a"⟩, ⟨"", "", "b"⟩, ⟨"", "", "c"⟩]
          ⟨[⟨⟨"", "", "a"⟩, false⟩, ⟨⟨"", "", "c"⟩, false⟩], 0⟩).rows
        (sync [⟨"", "", "a"⟩, ⟨"", "", "b"⟩, ⟨"", "", "c"⟩]
          ⟨[⟨⟨"", "", "a"⟩, false⟩, ⟨⟨"", "", "c"⟩, false⟩], 0⟩).cursor ≠
      current_row [⟨⟨"", "", "a"⟩, false⟩, ⟨⟨"", "", "c"⟩, false⟩] 0 := by
  constructor
  · simp +decide [sync, syncMerge, syncCursorDiff, clampRow]
  · simp +decide [sync, syncMerge, syncCursorDiff, clampRow, current_row]

/-! ### Claim theorems for selection and the bulk operations -/

/-- C4: on a non-empty row list, `selected_rows` yields exactly the rows
whose selection flag is set; when no flag is set it yields exactly the
single row under the cursor; it never yields an empty result. -/
theorem selected_rows_flagged_or_cursor (rows : List PassRow) (cursor : Nat)
    (h : cursor < rows.length) :
    (rows.filter (·.selected) ≠ [] →
        selected_rows rows cursor = rows.filter (·.selected)) ∧
      (rows.filter (·.selected) = [] →
        selected_rows rows cursor = [rows[cursor]]) ∧
      selected_rows rows cursor ≠ [] := by
  refine ⟨?_, ?_, ?_⟩
  · intro hne
    have hlen : (rows.filter (·.selected)).length ≠ 0 := by
      simpa [List.length_eq_zero] using hne
    simp [selected_rows, hlen]
  · intro he
    simp [selected_rows, he, current_row, List.getElem?_eq_getElem h]
  · by_cases he : rows.filter (·.selected) = []
    · simp [selected_rows, he]
    · have hlen : (rows.filter (·.selected)).length ≠ 0 := by
        simpa [List.length_eq_zero] using he
      simp [selected_rows, hlen, he]

/-- Witness for C4: a one-row table without explicit selection yields a
non-empty target set (the cursor row). -/
theorem selected_rows_flagged_or_cursor_witness :
    selected_rows [⟨⟨"", "", "a"⟩, false⟩] 0 ≠ [] :=
  (selected_rows_flagged_or_cursor [⟨⟨"", "", "a"⟩, false⟩] 0 (by decide)).2.2

/-- C5: if the single batch conflict check over all targets reports a
conflict, the move operation aborts before any per-row store I/O is
attempted: the store and the row list are unchanged and the only effect is
the conflict notification. -/
theorem move_conflict_aborts_without_io
    (fs : List String) (s : TableState) (listing : List PassTuple)
    (dst : String) (keep_cats : Bool)
    (h : move_has_conflicts fs (selected_tuples s.rows s.cursor) dst keep_cats = true) :
    tableMove fs s listing dst keep_cats = (fs, s, [Effect.notifyConflict]) ∧
      ∀ t d ok, Effect.ioMove t d ok ∉ (tableMove fs s listing dst keep_cats).2.2 := by
  have heq : tableMove fs s listing dst keep_cats = (fs, s, [Effect.notifyConflict]) := by
    unfold tableMove
    rw [if_pos h]
  refine ⟨heq, ?_⟩
  rw [heq]
  intro t d ok hmem
  simp at hmem

/-- Witness for C5, the spec's move-conflict example: the store holds
`work/mail` and `personal/mail`; moving `personal/mail` (the implicit cursor
target) to `work` without keeping categories reports a conflict and leaves
store, rows and cursor untouched. -/
theorem move_conflict_aborts_without_io_witness :
    move_has_conflicts ["/store/work", "/store/work/mail.gpg", "/store/personal/mail.gpg"]
        (selected_tuples [⟨⟨"personal", "", "mail"⟩, false⟩, ⟨⟨"work", "", "mail"⟩, false⟩] 0)
        ("work") false = true ∧
      tableMove ["/store/work", "/store/work/mail.gpg", "/store/personal/mail.gpg"]
          ⟨[⟨⟨"personal", "", "mail"⟩, false⟩, ⟨⟨"work", "", "mail"⟩, false⟩], 0⟩ []
          ("work") false =
        (["/store/work", "/store/work/mail.gpg", "/store/personal/mail.gpg"],
          ⟨[⟨⟨"personal", "", "mail"⟩, false⟩, ⟨⟨"work", "", "mail"⟩, false⟩], 0⟩,
          [Effect.notifyConflict]) :=
  ⟨by decide,
    (move_conflict_aborts_without_io
      ["/store/work", "/store/work/mail.gpg", "/store/personal/mail.gpg"]
      ⟨[⟨⟨"personal", "", "mail"⟩, false⟩, ⟨⟨"work", "", "mail"⟩, false⟩], 0⟩ []
      ("work") false (by decide)).1⟩

/-- C6 (code evaluation): for the candidate `(p, c, mail)` moved to `dst`
with categories kept, the claim's computed destination path
`dst/c/mail.gpg` exists in the store — and it is exactly the path the
per-row move would write to — yet `move_has_conflicts` reports no conflict,
because it checks `dst/p/c/mail.gpg` (inserting the profile segment) instead
of the path the move actually uses. -/
theorem move_has_conflicts_inserts_profile_segment :
    move_has_conflicts ["/store/dst", "/store/dst/c", "/store/dst/c/mail.gpg"]
        [⟨"p", "c", "mail"⟩] ("dst") true = false ∧
      hasConflictSpec ["/store/dst", "/store/dst/c", "/store/dst/c/mail.gpg"]
        [⟨"p", "c", "mail"⟩] ("dst") true = true ∧
      pathExists ["/store/dst", "/store/dst/c", "/store/dst/c/mail.gpg"]
        (joinStep (dst_to_fs_path (joinStep ("dst") ("c"))) ("mail" ++ ".gpg")) = true :=
  ⟨by decide, by decide, by decide⟩

/-- Every effect emitted by the removal loop is a removal attempt. -/
theorem rmLoop_only_removals (fs : List String) (rs : List PassRow) :
    ∀ e ∈ (rmLoop fs rs).2.2, ∃ t ok, e = Effect.ioRemove t ok := by
  induction rs generalizing fs with
  | nil =>
      intro e he
      simp [rmLoop] at he
  | cons r rs ih =>
      intro e he
      simp only [rmLoop, List.mem_cons] at he
      rcases he with rfl | he
      · exact ⟨r.tuple, _, rfl⟩
      · exact ih _ e he

/-- The removal loop attempts every target exactly once, in order. -/
theorem rmLoop_trace_tuples (fs : List String) (rs : List PassRow) :
    (rmLoop fs rs).2.2.filterMap
        (fun e => match e with | Effect.ioRemove t _ => some t | _ => none) =
      rs.map (·.tuple) := by
  induction rs generalizing fs with
  | nil => rfl
  | cons r rs ih => simp [rmLoop, ih]

/-- The failure count of the removal loop equals the number of failed
attempts in its trace. -/
theorem rmLoop_count (fs : List String) (rs : List PassRow) :
    (rmLoop fs rs).2.1 =
      (rmLoop fs rs).2.2.countP
        (fun e => match e with | Effect.ioRemove _ false => true | _ => false) := by
  induction rs generalizing fs with
  | nil => rfl
  | cons r rs ih =>
      simp only [rmLoop, List.countP_cons]
      rw [ih]
      cases h : (passRm fs r.tuple).1 <;> simp

theorem getLast?_append_pair {α : Type} (l : List α) (a b : α) :
    (l ++ [a, b]).getLast? = some b := by
  rw [show l ++ [a, b] = (l ++ [a]) ++ [b] by simp, List.getLast?_concat]

/-- C7 (counterexample evaluation): a concrete delete run removes its single
target, notifies success and resyncs, but the effect trace contains no call
to `passutils.prune` — the claim's "always call pruneEmptyDirectories"
step does not exist in `delete_selected` (nor anywhere else: `prune` has no
caller in the program). -/
theorem delete_selected_never_prunes :
    (delete_selected ["/store/a.gpg"] ⟨[⟨⟨"", "", "a"⟩, true⟩], 0⟩ []).2.2 =
        [Effect.ioRemove ⟨"", "", "a"⟩ true, Effect.notifySuccess, Effect.syncRun] ∧
      Effect.ioPrune ∉
        (delete_selected ["/store/a.gpg"] ⟨[⟨⟨"", "", "a"⟩, true⟩], 0⟩ []).2.2 :=
  ⟨by decide, by decide⟩

/-- C7 (amended): delete attempts the removal of each selected target
independently and in order without aborting on failure, never prunes
directories, always resyncs afterwards regardless of the failure count, and
notifies success exactly when no removal failed, otherwise notifying the
number of failures. -/
theorem delete_selected_amended (fs : List String) (s : TableState)
    (listing : List PassTuple) :
    ((delete_selected fs s listing).2.2.filterMap
        (fun e => match e with | Effect.ioRemove t _ => some t | _ => none) =
      (selected_rows s.rows s.cursor).map (·.tuple)) ∧
    Effect.ioPrune ∉ (delete_selected fs s listing).2.2 ∧
    (delete_selected fs s listing).2.2.getLast? = some Effect.syncRun ∧
    (delete_selected fs s listing).2.1 = sort_sync_enumerate listing s ∧
    ((Effect.notifySuccess ∈ (delete_selected fs s listing).2.2) ↔
      (delete_selected fs s listing).2.2.countP
        (fun e => match e with | Effect.ioRemove _ false => true | _ => false) = 0) ∧
    (∀ n, Effect.notifyFailure n ∈ (delete_selected fs s listing).2.2 ↔
      (n = (delete_selected fs s listing).2.2.countP
          (fun e => match e with | Effect.ioRemove _ false => true | _ => false) ∧
        0 < n)) := by
  have honly := rmLoop_only_removals fs (selected_rows s.rows s.cursor)
  have htr := rmLoop_trace_tuples fs (selected_rows s.rows s.cursor)
  have hcnt := rmLoop_count fs (selected_rows s.rows s.cursor)
  have heffs : (delete_selected fs s listing).2.2 =
      (rmLoop fs (selected_rows s.rows s.cursor)).2.2 ++
        [(if (rmLoop fs (selected_rows s.rows s.cursor)).2.1 > 0 then
            Effect.notifyFailure (rmLoop fs (selected_rows s.rows s.cursor)).2.1
          else Effect.notifySuccess), Effect.syncRun] := rfl
  have hnoNotif : ∀ e ∈ (rmLoop fs (selected_rows s.rows s.cursor)).2.2,
      (∀ n, e ≠ Effect.notifyFailure n) ∧ e ≠ Effect.notifySuccess ∧ e ≠ Effect.ioPrune := by
    intro e he
    obtain ⟨t, ok, rfl⟩ := honly e he
    refine ⟨?_, ?_, ?_⟩
    · intro n h
      cases h
    · intro h
      cases h
    · intro h
      cases h
  have hcountAll : (delete_selected fs s listing).2.2.countP
      (fun e => match e with | Effect.ioRemove _ false => true | _ => false) =
      (rmLoop fs (selected_rows s.rows s.cursor)).2.1 := by
    rw [heffs, List.countP_append, ← hcnt]
    by_cases h0 : (rmLoop fs (selected_rows s.rows s.cursor)).2.1 > 0 <;>
      simp [h0, List.countP_cons]
  refine ⟨?_, ?_, ?_, rfl, ?_, ?_⟩
  · rw [heffs, List.filterMap_append, htr]
    by_cases h0 : (rmLoop fs (selected_rows s.rows s.cursor)).2.1 > 0 <;>
      simp [h0]
  · rw [heffs]
    intro hmem
    rcases List.mem_append.mp hmem with hmem | hmem
    · exact (hnoNotif _ hmem).2.2 rfl
    · by_cases h0 : (rmLoop fs (selected_rows s.rows s.cursor)).2.1 > 0 <;>
        simp [h0] at hmem
  · rw [heffs, getLast?_append_pair]
  · rw [hcountAll, heffs]
    by_cases h0 : (rmLoop fs (selected_rows s.rows s.cursor)).2.1 > 0
    · constructor
      · intro hmem
        exfalso
        rcases List.mem_append.mp hmem with hmem | hmem
        · exact (hnoNotif _ hmem).2.1 rfl
        · rw [if_pos h0] at hmem
          simp at hmem
      · intro hz
        exfalso
        omega
    · have hz : (rmLoop fs (selected_rows s.rows s.cursor)).2.1 = 0 := by omega
      constructor
      · intro _
        exact hz
      · intro _
        refine List.mem_append.mpr (Or.inr ?_)
        rw [if_neg h0]
        simp
  · intro n
    rw [hcountAll, heffs]
    constructor
    · intro hmem
      rcases List.mem_append.mp hmem with hmem | hmem
      · exact absurd rfl ((hnoNotif _ hmem).1 n)
      · by_cases h0 : (rmLoop fs (selected_rows s.rows s.cursor)).2.1 > 0
        · rw [if_pos h0] at hmem
          simp at hmem
          exact ⟨hmem, by omega⟩
        · rw [if_neg h0] at hmem
          simp at hmem
    · rintro ⟨rfl, hn⟩
      refine List.mem_append.mpr (Or.inr ?_)
      rw [if_pos hn]
      simp

/-- C8 (code evaluation): for a store containing only `.h/sub/x.gpg` inside
the hidden directory `.h`, the listing still contains that entry — the
hidden-directory filter in `get_passwords` rebinds the local `dirs` list and
does not prune the `os.walk` traversal, and the per-directory check only
looks at the basename `sub`, which is not hidden. The specification-side
walk, which excludes all descendants of hidden directories, returns an empty
listing. -/
theorem get_passwords_lists_descendants_of_hidden_dirs :
    get_categorized_passwords
        (.dir ("store") [.dir (".h") [.dir ("sub") [] [("x.gpg")]] []] []) =
      [⟨".h", "sub", "x"⟩] ∧
    listEntriesSpec
        (.dir ("store") [.dir (".h") [.dir ("sub") [] [("x.gpg")]] []] []) = [] :=
  ⟨by decide, by decide⟩

/-- C9: `from_str` always takes the final path segment as the name; the
profile is empty for a single-segment path and the first segment otherwise;
everything between the first and last segment is joined into the category;
and `str` joins the fields skipping empty ones, so `("a", "", "b")` formats
as `"a/b"` with no doubled separator; `"a/b/c/d"` parses to
`("a", "b/c", "d")` and `"x"` to `("", "", "x")`. -/
theorem from_str_segment_rule (path : String) :
    (PassTuple.from_str path).url = (splitOnChar '/' path).getLastD "" ∧
    (PassTuple.from_str path).profile =
      (if (splitOnChar '/' path).length = 1 then ""
       else (splitOnChar '/' path).headD "") ∧
    (PassTuple.from_str path).cats =
      (match splitOnChar '/' path with
        | _ :: c :: r :: rest => ospJoin c ((r :: rest).dropLast)
        | _ => "") ∧
    PassTuple.str ⟨"a", "", "b"⟩ = "a/b" ∧
    PassTuple.from_str ("a/b/c/d") = ⟨"a", "b/c", "d"⟩ ∧
    PassTuple.from_str ("x") = ⟨"", "", "x"⟩ := by
  refine ⟨?_, ?_, ?_, by decide, by decide, by decide⟩
  · rcases hsp : splitOnChar '/' path with _ | ⟨a, _ | ⟨b, _ | ⟨c', rest⟩⟩⟩ <;>
      simp [PassTuple.from_str, hsp, List.getLastD_cons]
    cases hgl : (c' :: rest).getLast? with
    | none =>
        rw [List.getLast?_eq_none_iff] at hgl
        cases hgl
    | some x => simp
  · rcases hsp : splitOnChar '/' path with _ | ⟨a, _ | ⟨b, _ | ⟨c', rest⟩⟩⟩ <;>
      simp [PassTuple.from_str, hsp]
  · rcases hsp : splitOnChar '/' path with _ | ⟨a, _ | ⟨b, _ | ⟨c', rest⟩⟩⟩ <;>
      simp [PassTuple.from_str, hsp]

/-- Witness for C9 at the spec's example paths. -/
theorem from_str_segment_rule_witness :
    (PassTuple.from_str ("a/b/c/d")).url = (splitOnChar '/' ("a/b/c/d")).getLastD "" :=
  (from_str_segment_rule ("a/b/c/d")).1

end PassTui
